import Mathlib

/-!
Shallow embedding of the AuthorKit Bookshelf view-tracking pipeline.

Sources embedded here:
* `src/api/_lib/env-validator.js` (third document: the security utilities)
  — `rateLimit`, `validateInput`;
* `src/api/bookshelf/track-view.js` — both handler variants
  (the current one with rate limiting and schema validation, and the
  legacy one that follows the document separator);
* `src/api/bookshelf/books.js` — the catalog listing handler (placeholder);
* `src/js/bookshelf.js` — the client-side view deduplicator.

JavaScript numbers are modelled as `Int` (every value the endpoints are
specified over is an integer); `NaN` is represented as `none` in the result
of the `Number(...)` coercion.  JavaScript `Map` is modelled as an
insertion-ordered association list, matching `Map`'s iteration-order
semantics (`set` on an existing key keeps its position, `set` on a new key
appends, `keys().next().value` is the first key in insertion order).
-/

namespace Bookshelf

/-- A JavaScript value, restricted to the shapes the embedded endpoints
handle: `undefined`, `null`, strings, (integer) numbers, booleans and
arrays. -/
inductive JSValue where
  | undefined
  | null
  | str (s : String)
  | num (n : Int)
  | bool (b : Bool)
  | arr (elems : List JSValue)

/-- JavaScript truthiness for the modelled values. -/
def jsTruthy : JSValue → Bool
  | .undefined => false
  | .null => false
  | .str s => !(s == "")
  | .num n => !(n == 0)
  | .bool b => b
  | .arr _ => true

/-- Whitespace characters recognised by the JS `Number` / `trim`
coercions as modelled here. -/
def isWsChar (c : Char) : Bool :=
  c == ' ' || c == '\t' || c == '\n' || c == '\r'

/-- Trim leading and trailing whitespace from a character list
(model of `String.prototype.trim`). -/
def trimChars (l : List Char) : List Char :=
  ((l.dropWhile isWsChar).reverse.dropWhile isWsChar).reverse

/-- Model of `String.prototype.trim`. -/
def jsTrim (s : String) : String :=
  ⟨trimChars s.data⟩

/-- Decimal value of a digit list (most significant first). -/
def digitsToNat (l : List Char) : Nat :=
  l.foldl (fun acc c => acc * 10 + (c.toNat - 48)) 0

/-- Parse a character list as an optionally-signed decimal integer;
`none` when the list is not entirely an integer literal. -/
def parseSignedInt : List Char → Option Int
  | [] => none
  | '-' :: rest =>
      if rest ≠ [] ∧ rest.all Char.isDigit then some (-(digitsToNat rest : Int)) else none
  | '+' :: rest =>
      if rest ≠ [] ∧ rest.all Char.isDigit then some (digitsToNat rest : Int) else none
  | l => if l.all Char.isDigit then some (digitsToNat l : Int) else none

/-- Model of the JS `Number(value)` coercion on the embedded value grammar,
restricted to integer results; `none` stands for `NaN`.  Strings are
trimmed first; an empty (or all-whitespace) string coerces to `0`; a
one-element array coerces through its element and the empty array to `0`
(JS array-to-primitive coercion). -/
def jsToNumber : JSValue → Option Int
  | .undefined => none
  | .null => some 0
  | .num n => some n
  | .bool b => some (if b then 1 else 0)
  | .str s =>
      let t := trimChars s.data
      if t.isEmpty then some 0 else parseSignedInt t
  | .arr [] => some 0
  | .arr [v] => jsToNumber v
  | .arr (_ :: _ :: _) => none

/-- Model of `String(value)` for the values `parseInt` is applied to. -/
def jsToStr : JSValue → String
  | .undefined => "undefined"
  | .null => "null"
  | .str s => s
  | .num n => toString n
  | .bool b => if b then "true" else "false"
  | .arr _ => ""

/-- Model of JS `parseInt(value)`: coerce to string, skip leading
whitespace, then read an optionally-signed maximal run of digits; `none`
stands for `NaN`. -/
def jsParseInt (v : JSValue) : Option Int :=
  let cs := (jsToStr v).data.dropWhile isWsChar
  match cs with
  | '-' :: rest =>
      let ds := rest.takeWhile Char.isDigit
      if ds.isEmpty then none else some (-(digitsToNat ds : Int))
  | '+' :: rest =>
      let ds := rest.takeWhile Char.isDigit
      if ds.isEmpty then none else some (digitsToNat ds : Int)
  | l =>
      let ds := l.takeWhile Char.isDigit
      if ds.isEmpty then none else some (digitsToNat ds : Int)

/-- Property lookup `data[field]` on a JS object modelled as an
association list; an absent property reads as `undefined`. -/
def jsGet (data : List (String × JSValue)) (field : String) : JSValue :=
  match data.find? (fun p => p.1 == field) with
  | some p => p.2
  | none => .undefined

/-! ## Rate limiter (`src/api/_lib/env-validator.js`, security utilities,
lines 334–401) -/

/-- The in-memory `rateLimitStore`: a JS `Map` from key strings to request
counts, modelled as an insertion-ordered association list. -/
abbrev RLStore := List (String × Nat)

/-- Model of `rateLimitStore.get(key)` (`undefined` as `none`). -/
def mapGet (s : RLStore) (k : String) : Option Nat :=
  (s.find? (fun p => p.1 == k)).map (fun p => p.2)

/-- Model of `rateLimitStore.set(key, v)`: update in place when the key exists
(keeping its insertion position), append otherwise. -/
def mapSet (s : RLStore) (k : String) (v : Nat) : RLStore :=
  if s.any (fun p => p.1 == k) then
    s.map (fun p => if p.1 == k then (k, v) else p)
  else
    s ++ [(k, v)]

/-- Model of `rateLimitStore.delete(key)`. -/
def mapDelete (s : RLStore) (k : String) : RLStore :=
  s.filter (fun p => !(p.1 == k))

/-- Model of `rateLimitStore.keys().next().value`: the first key in insertion
order. -/
def firstKey (s : RLStore) : Option String :=
  match s with
  | [] => none
  | p :: _ => some p.1

/-- Result object of `rateLimit`. -/
structure RLResult where
  allowed : Bool
  retryAfter : Nat
  remaining : Nat

/-- The store key `` `${identifier}:${Math.floor(now / windowMs)}` ``. -/
def rlKey (identifier : String) (windowMs now : Nat) : String :=
  identifier ++ ":" ++ toString (now / windowMs)

/-- The size ceiling of the rate-limit store. -/
def rlCapacity : Nat := 10000

/-- Model of `rateLimit(identifier, maxRequests, windowMs)` from the security
utilities, with `Date.now()` passed explicitly as `now`.  Increments the
count for the `(identifier, window)` key, evicts the first-inserted entry
when the store exceeds 10000 entries, and allows the call iff the new
count is at most `maxRequests`.  `Math.ceil(windowMs / 1000)` on a natural
number is `(windowMs + 999) / 1000`. -/
def rateLimit (store : RLStore) (identifier : String)
    (maxRequests windowMs now : Nat) : RLResult × RLStore :=
  let key := rlKey identifier windowMs now
  let requestCount := (mapGet store key).getD 0 + 1
  let store1 := mapSet store key requestCount
  let store2 :=
    if store1.length > rlCapacity then
      match firstKey store1 with
      | some oldest => mapDelete store1 oldest
      | none => store1
    else store1
  let allowed := requestCount ≤ maxRequests
  let retryAfter := if allowed then 0 else (windowMs + 999) / 1000
  ({ allowed := allowed, retryAfter := retryAfter,
     remaining := maxRequests - requestCount }, store2)

/-- A sequence of consecutive `rateLimit` calls for one identifier, one
per timestamp in `nows`; returns the per-call results in order together
with the final store. -/
def rlRun (store : RLStore) (identifier : String) (maxRequests windowMs : Nat) :
    List Nat → List RLResult × RLStore
  | [] => ([], store)
  | t :: ts =>
      let r := rateLimit store identifier maxRequests windowMs t
      let rest := rlRun r.2 identifier maxRequests windowMs ts
      (r.1 :: rest.1, rest.2)

/-- An arbitrary interleaving of `rateLimit` calls: each list element is
`(identifier, maxRequests, windowMs, now)`. -/
def rlRunAny (store : RLStore) : List (String × Nat × Nat × Nat) → RLStore
  | [] => store
  | c :: cs => rlRunAny (rateLimit store c.1 c.2.1 c.2.2.1 c.2.2.2).2 cs

/-! ## Input validation (`src/api/_lib/env-validator.js`, security
utilities, lines 413–486: `validateInput`) -/

/-- The per-field rule object of a `validateInput` schema.  `type` is the
JS type-tag string (`"string"`, `"number"`, `"boolean"`, `"array"`);
`minLength`/`maxLength` are absent when not given (and, matching the JS
truthiness guard `rules.minLength && ...`, a value of `0` is ignored). -/
structure FieldRules where
  required : Bool := false
  type : Option String := none
  minLength : Option Nat := none
  maxLength : Option Nat := none

/-- The `required` test of `validateInput`:
`value === undefined || value === null || value === ''`. -/
def isMissing : JSValue → Bool
  | .undefined => true
  | .null => true
  | .str s => s == ""
  | _ => false

/-- The tail of the `validateInput` loop body, reached by `break` (or by
having no type rule): string length checks and sanitisation.  Strings are
trimmed into `sanitized`; non-strings are copied as-is. -/
def lengthChecks (field : String) (rules : FieldRules) (value : JSValue) :
    List String × List (String × JSValue) :=
  match value with
  | .str s =>
      let errsMin :=
        match rules.minLength with
        | some m =>
            if 0 < m ∧ s.data.length < m then
              [field ++ " must be at least " ++ toString m ++ " characters"]
            else []
        | none => []
      let errsMax :=
        match rules.maxLength with
        | some m =>
            if 0 < m ∧ s.data.length > m then
              [field ++ " must be at most " ++ toString m ++ " characters"]
            else []
        | none => []
      (errsMin ++ errsMax, [(field, .str (jsTrim s))])
  | v => ([], [(field, v)])

/-- One iteration of the `validateInput` loop for the field `field` with
rules `rules` and value `value = data[field]`: the errors pushed and the
`sanitized` entries written for this field.  The `number` branch accepts a
value that either is a number or coerces via `Number(...)` to a
non-`NaN` value, stores the coerced number, and `continue`s (skipping the
length checks). -/
def validateField (field : String) (rules : FieldRules) (value : JSValue) :
    List String × List (String × JSValue) :=
  if rules.required && isMissing value then
    ([field ++ " is required"], [])
  else if !rules.required && isMissing value then
    ([], [])
  else if rules.type == some "string" then
    match value with
    | .str s => lengthChecks field rules (.str s)
    | _ => ([field ++ " must be a string"], [])
  else if rules.type == some "number" then
    match jsToNumber value with
    | some n => ([], [(field, .num n)])
    | none => ([field ++ " must be a number"], [])
  else if rules.type == some "boolean" then
    match value with
    | .bool b => lengthChecks field rules (.bool b)
    | _ => ([field ++ " must be a boolean"], [])
  else if rules.type == some "array" then
    match value with
    | .arr l => lengthChecks field rules (.arr l)
    | _ => ([field ++ " must be an array"], [])
  else
    lengthChecks field rules value

/-- Result object of `validateInput`. -/
structure ValidationResult where
  isValid : Bool
  errors : List String
  data : List (String × JSValue)

/-- Model of `validateInput(data, schema)`: run every schema field's checks,
collecting all errors (in schema order) and the sanitised data. -/
def validateInput (data : List (String × JSValue))
    (schema : List (String × FieldRules)) : ValidationResult :=
  let results := schema.map (fun p => validateField p.1 p.2 (jsGet data p.1))
  let errors := (results.map (fun r => r.1)).flatten
  { isValid := errors.isEmpty
    errors := errors
    data := (results.map (fun r => r.2)).flatten }

/-! ## HTTP status codes and error envelopes

Modelled from the spec: the repository's `src/api/_lib/errors.js`
(`HTTP_STATUS`, `methodNotAllowedError`, `rateLimitError`,
`validationError`, `internalError`) is imported by the handlers but is not
among the source files; the numeric codes and envelope shapes follow the
spec's sections 6 and 7 (200 on acceptance, 405/429/400 for
method/rate-limit/validation rejections, 500 for internal errors, with
the internal error carrying diagnostic detail only in development). -/

/-- A response body: the success envelope, the structured error envelopes
built by `_lib/errors.js`, the plain `{success:false, error}` objects of
the legacy handlers, the empty body of `res.end()`, and the catalog
listing payload. -/
inductive RespBody where
  | empty
  | success (tracked : Bool)
  | methodNotAllowed (allowedVerb : String)
  | rateLimited (retryAfter : Nat)
  | validationFailed (message : String) (errors : List String)
  | internalErr (isDev : Bool)
  | errMsg (msg : String)
  | internalErrMsg (msg : String)
  | booksOk (books : List Nat) (page limit total pages : Nat)
      (totalBooks totalAuthors : Nat)

/-- An HTTP response: status code and JSON body. -/
structure Response where
  status : Nat
  body : RespBody

/-! ## View-ingestion handler (`src/api/bookshelf/track-view.js`, current
variant, lines 23–102) -/

/-- An incoming request to the ingestion endpoint: HTTP method and JSON
body (an object, modelled as an association list).  The client IP
(`getClientIp(req)`, computed from headers) is passed separately. -/
structure TVRequest where
  method : String
  body : List (String × JSValue)

/-- The outcome of the awaited datastore insert, which is the only
fallible operation inside the handler's `try` block: the insert succeeds
(`ok`), returns an error object (`err`), or throws an exception that
transfers control to the `catch` block (`exn`). -/
inductive InsertOutcome where
  | ok
  | err
  | exn

/-- Everything observable about one handler invocation: the response, the
rate-limit store afterwards, the `book_id` values of the rows inserted
into `bookshelf_book_views`, and the messages passed to
`logger.error`. -/
structure TVOutcome where
  resp : Response
  store : RLStore
  inserted : List JSValue
  logs : List String

/-- The `validateInput` schema used by the handler:
`{ book_id: { required: true, type: 'number' } }`. -/
def trackViewSchema : List (String × FieldRules) :=
  [("book_id", { required := true, type := some "number" })]

/-- The JS comparison `bookId <= 0` as it behaves on the values
`validation.data.book_id` can hold: true exactly for a non-positive
number (comparison with `undefined` is false). -/
def jsLeZero : JSValue → Bool
  | .num n => n ≤ 0
  | _ => false

/-- The current `track-view.js` handler (first document in the file).
CORS/security header setup is response-metadata only and is not modelled.
Order of checks: OPTIONS preflight, method check, rate limiting
(100 requests per 3600000 ms window per client IP), schema validation,
the `bookId <= 0` business rule, then the insert; an insert error yields
`200 {success:true, tracked:false}` and an exception inside `try` is
caught and answered with a 500 internal error. -/
def trackViewHandler (req : TVRequest) (clientIp : String) (store : RLStore)
    (now : Nat) (outcome : InsertOutcome) (isDev : Bool) : TVOutcome :=
  if req.method == "OPTIONS" then
    { resp := ⟨200, .empty⟩, store := store, inserted := [], logs := [] }
  else if !(req.method == "POST") then
    { resp := ⟨405, .methodNotAllowed "POST"⟩, store := store,
      inserted := [], logs := [] }
  else
    let rl := rateLimit store clientIp 100 3600000 now
    if !rl.1.allowed then
      { resp := ⟨429, .rateLimited rl.1.retryAfter⟩, store := rl.2,
        inserted := [], logs := [] }
    else
      let validation := validateInput req.body trackViewSchema
      if !validation.isValid then
        { resp := ⟨400, .validationFailed "Validation failed" validation.errors⟩,
          store := rl.2, inserted := [], logs := [] }
      else
        let bookId := jsGet validation.data "book_id"
        if jsLeZero bookId then
          { resp := ⟨400, .validationFailed "book_id must be a positive number" []⟩,
            store := rl.2, inserted := [], logs := [] }
        else
          match outcome with
          | .ok =>
              { resp := ⟨200, .success true⟩, store := rl.2,
                inserted := [bookId], logs := [] }
          | .err =>
              { resp := ⟨200, .success false⟩, store := rl.2,
                inserted := [], logs := ["Failed to track view"] }
          | .exn =>
              { resp := ⟨500, .internalErr isDev⟩, store := rl.2,
                inserted := [], logs := ["Error tracking view"] }

/-- The legacy `track-view.js` handler (second document in the file):
no rate limiting, `parseInt`-based validation, and a `catch` block that
still answers `200 {success:true, tracked:false}`. -/
def trackViewHandlerLegacy (req : TVRequest) (outcome : InsertOutcome) :
    Response × List JSValue :=
  if !(req.method == "POST") then
    (⟨405, .errMsg "Method not allowed. Use POST."⟩, [])
  else
    let bookIdRaw := jsGet req.body "book_id"
    match jsParseInt bookIdRaw with
    | none => (⟨400, .errMsg "Invalid book_id. Must be a number."⟩, [])
    | some n =>
        if !jsTruthy bookIdRaw then
          (⟨400, .errMsg "Invalid book_id. Must be a number."⟩, [])
        else
          match outcome with
          | .ok => (⟨200, .success true⟩, [.num n])
          | .err => (⟨200, .success false⟩, [])
          | .exn => (⟨200, .success false⟩, [])

/-! ## Catalog listing handler (`src/api/bookshelf/books.js`) -/

/-- A request to the catalog listing endpoint: HTTP method and the
`page`/`limit` query parameters. -/
structure BooksRequest where
  method : String
  page : Nat := 1
  limit : Nat := 20

/-- The `books.js` handler as it stands in the source: a placeholder
("Return empty data for now ... will be connected to database later")
that answers every GET with an empty book list and zeroed pagination and
stats, ignoring both the query parameters and the datastore content
(`db` is the list of book ids present in `bookshelf_books`). -/
def booksHandler (req : BooksRequest) (db : List Nat) : Response :=
  if !(req.method == "GET") then
    ⟨405, .errMsg "Method not allowed. Use GET."⟩
  else
    ⟨200, .booksOk [] 1 20 0 0 0 0⟩

/-! ## Client-side view deduplicator (`src/js/bookshelf.js`,
lines 12–55) -/

/-- One `IntersectionObserver` entry delivered to the view observer:
whether the element is intersecting (at the configured 50% threshold) and
its `dataset.bookId` (`none` when the attribute is absent). -/
structure ObsEntry where
  isIntersecting : Bool
  bookId : Option String

/-- One call to `trackBookView`, i.e. one POST of
`{ book_id: <value> }` to the ingestion endpoint.  The client always
takes the id from `dataset.bookId`, so the value is a string. -/
structure IngestCall where
  book_id : JSValue

/-- The observer callback body for a single entry: fire `trackBookView`
only for an intersecting entry whose (truthy) book id has not been seen
this session, and mark it seen. -/
def processEntry (viewed : List String) (e : ObsEntry) :
    List String × List IngestCall :=
  if e.isIntersecting then
    match e.bookId with
    | some b =>
        if jsTruthy (.str b) && !viewed.contains b then
          (b :: viewed, [⟨.str b⟩])
        else (viewed, [])
    | none => (viewed, [])
  else (viewed, [])

/-- Deliver a stream of observer entries, threading the `viewedBooks` set
and accumulating the ingestion calls in order. -/
def processEntries (viewed : List String) :
    List ObsEntry → List String × List IngestCall
  | [] => (viewed, [])
  | e :: es =>
      let r := processEntry viewed e
      let rest := processEntries r.1 es
      (rest.1, r.2 ++ rest.2)

/-- One page session: the `viewedBooks` set starts empty (it is reset
only by a full page reload). -/
def runSession (es : List ObsEntry) : List String × List IngestCall :=
  processEntries [] es

/-- Number of ingestion calls issued for the book id `b`. -/
def countCalls (b : String) (calls : List IngestCall) : Nat :=
  (calls.filter (fun c =>
    match c.book_id with
    | .str s => s == b
    | _ => false)).length

/-! ## Lemmas about the `Map` model -/

/-- The keys of a store, in insertion order. -/
def keysOf (s : RLStore) : List String :=
  s.map Prod.fst

theorem mapGet_eq_none_iff {s : RLStore} {k : String} :
    mapGet s k = none ↔ ∀ p ∈ s, p.1 ≠ k := by
  simp [mapGet, List.find?_eq_none]

theorem any_key_eq_false_of_get_none {s : RLStore} {k : String}
    (h : mapGet s k = none) : s.any (fun p => p.1 == k) = false := by
  rw [mapGet_eq_none_iff] at h
  simp only [List.any_eq_false]
  intro p hp
  simpa using h p hp

theorem mapSet_of_get_none {s : RLStore} {k : String} (v : Nat)
    (h : mapGet s k = none) : mapSet s k v = s ++ [(k, v)] := by
  simp [mapSet, any_key_eq_false_of_get_none h]

theorem mapGet_append_of_none {s : RLStore} {k : String} (t : RLStore)
    (h : mapGet s k = none) : mapGet (s ++ t) k = mapGet t k := by
  simp only [mapGet] at *
  rw [List.find?_append]
  cases hf : List.find? (fun p => p.1 == k) s with
  | none => simp [Option.or]
  | some p => simp [hf] at h

theorem find?_replace {k k' : String} (v : Nat) (h : k' ≠ k) :
    ∀ t : RLStore,
      List.find? (fun p => p.1 == k')
          (t.map (fun p => if p.1 == k then (k, v) else p))
        = List.find? (fun p => p.1 == k') t
  | [] => rfl
  | p :: t => by
      rw [List.map_cons]
      by_cases hp : p.1 = k
      · have hif : (if p.1 == k then ((k, v) : String × Nat) else p) = (k, v) := by
          simp [hp]
        rw [hif, List.find?_cons_of_neg _ (by simp [Ne.symm h]),
          List.find?_cons_of_neg _ (by simp [hp, Ne.symm h])]
        exact find?_replace v h t
      · have hif : (if p.1 == k then ((k, v) : String × Nat) else p) = p := by
          simp [hp]
        rw [hif]
        by_cases hq : p.1 = k'
        · rw [List.find?_cons_of_pos _ (by simp [hq]),
            List.find?_cons_of_pos _ (by simp [hq])]
        · rw [List.find?_cons_of_neg _ (by simp [hq]),
            List.find?_cons_of_neg _ (by simp [hq])]
          exact find?_replace v h t

theorem find?_replace_self {k : String} (v : Nat) :
    ∀ t : RLStore, t.any (fun p => p.1 == k) = true →
      List.find? (fun p => p.1 == k)
          (t.map (fun p => if p.1 == k then (k, v) else p))
        = some (k, v)
  | p :: t, h => by
      rw [List.map_cons]
      by_cases hp : p.1 = k
      · have hif : (if p.1 == k then ((k, v) : String × Nat) else p) = (k, v) := by
          simp [hp]
        rw [hif, List.find?_cons_of_pos _ (by simp)]
      · have hif : (if p.1 == k then ((k, v) : String × Nat) else p) = p := by
          simp [hp]
        rw [hif, List.find?_cons_of_neg _ (by simp [hp])]
        have ht : t.any (fun p => p.1 == k) = true := by
          simpa [List.any_cons, hp] using h
        exact find?_replace_self v t ht

theorem mapGet_mapSet_self (s : RLStore) (k : String) (v : Nat) :
    mapGet (mapSet s k v) k = some v := by
  by_cases h : s.any (fun p => p.1 == k) = true
  · simp only [mapSet, mapGet]
    rw [if_pos h, find?_replace_self v s h]
    rfl
  · simp only [Bool.not_eq_true] at h
    simp only [mapSet, mapGet]
    rw [if_neg (by simp [h]), List.find?_append]
    have hn : List.find? (fun p => p.1 == k) s = none := by
      rw [List.find?_eq_none]
      intro p hp
      simp only [List.any_eq_false] at h
      exact h p hp
    rw [hn, List.find?_cons_of_pos _ (by simp)]
    rfl

theorem mapGet_mapSet_ne (s : RLStore) {k k' : String} (v : Nat)
    (h : k' ≠ k) : mapGet (mapSet s k v) k' = mapGet s k' := by
  by_cases hs : s.any (fun p => p.1 == k) = true
  · simp only [mapSet, mapGet]
    rw [if_pos hs, find?_replace v h s]
  · simp only [Bool.not_eq_true] at hs
    simp only [mapSet, mapGet]
    rw [if_neg (by simp [hs]), List.find?_append]
    have hone : List.find? (fun p => p.1 == k') [(k, v)] = none := by
      simp [List.find?_cons, Ne.symm h]
    rw [hone]
    cases List.find? (fun p => p.1 == k') s <;> rfl

theorem length_mapSet_of_get_none {s : RLStore} {k : String} (v : Nat)
    (h : mapGet s k = none) : (mapSet s k v).length = s.length + 1 := by
  rw [mapSet_of_get_none v h]
  simp

theorem length_mapSet_of_any {s : RLStore} {k : String} (v : Nat)
    (h : s.any (fun p => p.1 == k) = true) :
    (mapSet s k v).length = s.length := by
  simp [mapSet, h]

theorem length_mapSet_le (s : RLStore) (k : String) (v : Nat) :
    (mapSet s k v).length ≤ s.length + 1 := by
  by_cases hs : s.any (fun p => p.1 == k) = true
  · simp [mapSet, hs]
  · simp only [Bool.not_eq_true] at hs
    simp [mapSet, hs]

theorem mapGet_mapDelete_self (s : RLStore) (k : String) :
    mapGet (mapDelete s k) k = none := by
  have hn : List.find? (fun p => p.1 == k) (s.filter (fun p => !(p.1 == k))) = none := by
    rw [List.find?_eq_none]
    intro p hp
    have := List.of_mem_filter hp
    simpa using this
  simp only [mapGet, mapDelete]
  rw [hn]
  rfl

theorem find?_filter_ne {k k' : String} (h : k' ≠ k) :
    ∀ s : RLStore,
      List.find? (fun p => p.1 == k') (s.filter (fun p => !(p.1 == k)))
        = List.find? (fun p => p.1 == k') s
  | [] => rfl
  | p :: t => by
      by_cases hp : p.1 = k
      · rw [List.filter_cons_of_neg (by simp [hp]),
          List.find?_cons_of_neg _ (by simp [hp, Ne.symm h])]
        exact find?_filter_ne h t
      · rw [List.filter_cons_of_pos (by simp [hp])]
        by_cases hq : p.1 = k'
        · rw [List.find?_cons_of_pos _ (by simp [hq]),
            List.find?_cons_of_pos _ (by simp [hq])]
        · rw [List.find?_cons_of_neg _ (by simp [hq]),
            List.find?_cons_of_neg _ (by simp [hq])]
          exact find?_filter_ne h t

theorem mapGet_mapDelete_ne (s : RLStore) {k k' : String} (h : k' ≠ k) :
    mapGet (mapDelete s k) k' = mapGet s k' := by
  simp only [mapGet, mapDelete]
  rw [find?_filter_ne h s]

theorem any_of_mapGet_some {s : RLStore} {k : String} {v : Nat}
    (h : mapGet s k = some v) : s.any (fun p => p.1 == k) = true := by
  simp only [mapGet, Option.map_eq_some'] at h
  obtain ⟨p, hp, -⟩ := h
  have hm := List.mem_of_find?_eq_some hp
  have hk := List.find?_some hp
  simp only [List.any_eq_true]
  exact ⟨p, hm, hk⟩

/-! ## Lemmas about `rateLimit` -/

theorem rateLimit_result (store : RLStore) (id : String) (max wms now : Nat) :
    (rateLimit store id max wms now).1 =
      { allowed := decide ((mapGet store (rlKey id wms now)).getD 0 + 1 ≤ max),
        retryAfter :=
          if (mapGet store (rlKey id wms now)).getD 0 + 1 ≤ max then 0
          else (wms + 999) / 1000,
        remaining := max - ((mapGet store (rlKey id wms now)).getD 0 + 1) } := by
  simp only [rateLimit]

theorem rateLimit_store_eq (store : RLStore) (id : String) (max wms now : Nat) :
    (rateLimit store id max wms now).2 =
      (let key := rlKey id wms now
       let store1 := mapSet store key ((mapGet store key).getD 0 + 1)
       if store1.length > rlCapacity then
         match firstKey store1 with
         | some oldest => mapDelete store1 oldest
         | none => store1
       else store1) := rfl

/-- Core step property of the limiter: starting from a store within the
size ceiling, one call leaves the key of that call mapped to its old
count plus one (eviction can only remove a different, older entry) and
keeps the store within the ceiling. -/
theorem rateLimit_step_key {store : RLStore} (id : String) (max wms now : Nat)
    (hlen : store.length ≤ rlCapacity) :
    mapGet (rateLimit store id max wms now).2 (rlKey id wms now)
        = some ((mapGet store (rlKey id wms now)).getD 0 + 1)
      ∧ (rateLimit store id max wms now).2.length ≤ rlCapacity := by
  rw [rateLimit_store_eq]
  simp only []
  generalize hkeyg : rlKey id wms now = key
  generalize hc1g : (mapGet store key).getD 0 + 1 = c1
  by_cases hev : (mapSet store key c1).length > rlCapacity
  · rw [if_pos hev]
    have hfresh : mapGet store key = none := by
      cases hget : mapGet store key with
      | none => rfl
      | some v =>
          have := length_mapSet_of_any c1 (any_of_mapGet_some hget)
          omega
    have hlen1 : (mapSet store key c1).length = store.length + 1 :=
      length_mapSet_of_get_none _ hfresh
    have hpos : 0 < rlCapacity := by norm_num [rlCapacity]
    cases store with
    | nil => simp at hlen1; omega
    | cons p t =>
        have hset : mapSet (p :: t) key c1 = p :: (t ++ [(key, c1)]) := by
          rw [mapSet_of_get_none _ hfresh]
          simp
        have hpk : p.1 ≠ key := mapGet_eq_none_iff.mp hfresh p (by simp)
        rw [hset]
        simp only [firstKey]
        constructor
        · rw [mapGet_mapDelete_ne _ (Ne.symm hpk)]
          have : mapGet (p :: (t ++ [(key, c1)])) key = some c1 := by
            rw [← hset]
            exact mapGet_mapSet_self _ _ _
          exact this
        · have hdrop : mapDelete (p :: (t ++ [(key, c1)])) p.1
              = mapDelete (t ++ [(key, c1)]) p.1 := by
            simp only [mapDelete]
            rw [List.filter_cons_of_neg (by simp)]
          rw [hdrop]
          have h1 : (mapDelete (t ++ [(key, c1)]) p.1).length
              ≤ (t ++ [(key, c1)]).length := List.length_filter_le _ _
          have h2 : (t ++ [(key, c1)]).length = t.length + 1 := by simp
          have h3 : (p :: t).length = t.length + 1 := by simp
          omega
  · rw [if_neg hev]
    refine ⟨mapGet_mapSet_self _ _ _, ?_⟩
    omega

/-- The per-call results of a run of consecutive calls for one identifier
inside one window: if the key starts at count `c` (with `c = 0` when
absent), the `i`-th call observes count `c + i + 1`. -/
theorem rlRun_spec {id : String} {max wms w : Nat} :
    ∀ (ts : List Nat) (store : RLStore) (c : Nat),
      (mapGet store (id ++ ":" ++ toString w) = some c ∨
        (mapGet store (id ++ ":" ++ toString w) = none ∧ c = 0)) →
      store.length ≤ rlCapacity →
      (∀ t ∈ ts, t / wms = w) →
      ∀ i (h : i < (rlRun store id max wms ts).1.length),
        (rlRun store id max wms ts).1.get ⟨i, h⟩ =
          { allowed := decide (c + i + 1 ≤ max),
            retryAfter := if c + i + 1 ≤ max then 0 else (wms + 999) / 1000,
            remaining := max - (c + i + 1) }
  | [], store, c, _, _, _, i, h => by simp [rlRun] at h
  | t :: ts, store, c, hc, hlen, hts, i, h => by
      have hkeyt : rlKey id wms t = id ++ ":" ++ toString w := by
        rw [rlKey, hts t (by simp)]
      have hgetd : (mapGet store (rlKey id wms t)).getD 0 = c := by
        rw [hkeyt]
        rcases hc with hc | ⟨hc, rfl⟩ <;> simp [hc]
      have hstep := @rateLimit_step_key store id max wms t hlen
      rw [hgetd] at hstep
      rw [hkeyt] at hstep
      match i with
      | 0 =>
          show (rateLimit store id max wms t).1 = _
          rw [rateLimit_result, hgetd]
      | i + 1 =>
          show (rlRun (rateLimit store id max wms t).2 id max wms ts).1.get ⟨i, _⟩ = _
          have ih := rlRun_spec ts (rateLimit store id max wms t).2 (c + 1)
            (Or.inl hstep.1) hstep.2 (fun u hu => hts u (by simp [hu]))
            i (by
              have : i + 1 < (rlRun store id max wms (t :: ts)).1.length := h
              simpa [rlRun] using this)
          rw [ih]
          have e : c + 1 + i + 1 = c + (i + 1) + 1 := by omega
          rw [e]

/-! ## Bounded-size invariant machinery -/

theorem keysOf_mapSet_of_any {s : RLStore} {k : String} (v : Nat)
    (h : s.any (fun p => p.1 == k) = true) :
    keysOf (mapSet s k v) = keysOf s := by
  simp only [mapSet]
  rw [if_pos h]
  simp only [keysOf, List.map_map]
  apply List.map_congr_left
  intro p hp
  by_cases hpk : p.1 = k
  · simp [Function.comp, hpk]
  · simp [Function.comp, hpk]

theorem not_mem_keysOf_of_get_none {s : RLStore} {k : String}
    (h : mapGet s k = none) : k ∉ keysOf s := by
  rw [mapGet_eq_none_iff] at h
  simp only [keysOf, List.mem_map, not_exists, not_and]
  intro p hp
  exact fun he => h p hp he

theorem nodup_keys_mapSet {s : RLStore} {k : String} (v : Nat)
    (hnd : (keysOf s).Nodup) : (keysOf (mapSet s k v)).Nodup := by
  by_cases h : s.any (fun p => p.1 == k) = true
  · rw [keysOf_mapSet_of_any v h]
    exact hnd
  · simp only [Bool.not_eq_true] at h
    have hfresh : mapGet s k = none := by
      rw [mapGet_eq_none_iff]
      intro p hp
      simp only [List.any_eq_false] at h
      simpa using h p hp
    rw [mapSet_of_get_none v hfresh]
    have : keysOf (s ++ [(k, v)]) = keysOf s ++ [k] := by simp [keysOf]
    rw [this]
    rw [(List.perm_append_singleton k (keysOf s)).nodup_iff, List.nodup_cons]
    exact ⟨not_mem_keysOf_of_get_none hfresh, hnd⟩

theorem nodup_keys_mapDelete {s : RLStore} (k : String)
    (hnd : (keysOf s).Nodup) : (keysOf (mapDelete s k)).Nodup :=
  ((List.filter_sublist s).map Prod.fst).nodup hnd

theorem mapDelete_cons_head {p : String × Nat} {t : RLStore}
    (hnd : (keysOf (p :: t)).Nodup) : mapDelete (p :: t) p.1 = t := by
  simp only [mapDelete]
  rw [List.filter_cons_of_neg (by simp)]
  rw [List.filter_eq_self]
  intro q hq
  have : p.1 ∉ keysOf t := by
    simp only [keysOf, List.map_cons, List.nodup_cons] at hnd
    exact hnd.1
  have : q.1 ≠ p.1 := by
    intro he
    exact this (by simpa [keysOf, ← he] using List.mem_map_of_mem Prod.fst hq)
  simp [this]

/-- One `rateLimit` call keeps the store within the ceiling and with
distinct keys, and when the insertion pushed the store over the ceiling,
the eviction removes exactly one entry. -/
theorem rateLimit_preserves (store : RLStore) (id : String) (max wms now : Nat)
    (hlen : store.length ≤ rlCapacity) (hnd : (keysOf store).Nodup) :
    (rateLimit store id max wms now).2.length ≤ rlCapacity
    ∧ (keysOf (rateLimit store id max wms now).2).Nodup
    ∧ ((mapSet store (rlKey id wms now)
          ((mapGet store (rlKey id wms now)).getD 0 + 1)).length > rlCapacity →
        (rateLimit store id max wms now).2.length
          = (mapSet store (rlKey id wms now)
              ((mapGet store (rlKey id wms now)).getD 0 + 1)).length - 1) := by
  rw [rateLimit_store_eq]
  simp only []
  generalize hkeyg : rlKey id wms now = key
  generalize hc1g : (mapGet store key).getD 0 + 1 = c1
  by_cases hev : (mapSet store key c1).length > rlCapacity
  · rw [if_pos hev]
    have hfresh : mapGet store key = none := by
      cases hget : mapGet store key with
      | none => rfl
      | some v =>
          have := length_mapSet_of_any c1 (any_of_mapGet_some hget)
          omega
    have hlen1 : (mapSet store key c1).length = store.length + 1 :=
      length_mapSet_of_get_none _ hfresh
    have hpos : 0 < rlCapacity := by norm_num [rlCapacity]
    cases store with
    | nil => simp at hlen1; omega
    | cons p t =>
        have hset : mapSet (p :: t) key c1 = p :: (t ++ [(key, c1)]) := by
          rw [mapSet_of_get_none _ hfresh]
          simp
        have hnd1 : (keysOf (mapSet (p :: t) key c1)).Nodup := nodup_keys_mapSet c1 hnd
        rw [hset]
        rw [hset] at hnd1 hlen1
        simp only [firstKey]
        have hdel : mapDelete (p :: (t ++ [(key, c1)])) p.1 = t ++ [(key, c1)] :=
          mapDelete_cons_head hnd1
        rw [hdel]
        refine ⟨?_, ?_, ?_⟩
        · have : (t ++ [(key, c1)]).length = t.length + 1 := by simp
          have hl : (p :: t).length = t.length + 1 := by simp
          omega
        · have : keysOf (p :: (t ++ [(key, c1)])) = p.1 :: keysOf (t ++ [(key, c1)]) := by
            simp [keysOf]
          rw [this, List.nodup_cons] at hnd1
          exact hnd1.2
        · intro _
          simp
  · rw [if_neg hev]
    refine ⟨by omega, nodup_keys_mapSet c1 hnd, fun hf => absurd hf hev⟩

/-- The bounded-size invariant is preserved along any interleaving of
calls. -/
theorem rlRunAny_inv :
    ∀ (calls : List (String × Nat × Nat × Nat)) (store : RLStore),
      store.length ≤ rlCapacity → (keysOf store).Nodup →
      (rlRunAny store calls).length ≤ rlCapacity
        ∧ (keysOf (rlRunAny store calls)).Nodup
  | [], store, hlen, hnd => ⟨hlen, hnd⟩
  | c :: cs, store, hlen, hnd => by
      have hstep := rateLimit_preserves store c.1 c.2.1 c.2.2.1 c.2.2.2 hlen hnd
      exact rlRunAny_inv cs _ hstep.1 hstep.2.1

/-- One call can only leave a key's count unchanged, increment it (when
it is the call's own key), or remove the entry by eviction. -/
theorem rateLimit_mono_or_evict {store : RLStore} {k : String} {c : Nat}
    (id : String) (max wms now : Nat) (h : mapGet store k = some c) :
    mapGet (rateLimit store id max wms now).2 k = none
    ∨ ∃ c2, mapGet (rateLimit store id max wms now).2 k = some c2 ∧ c ≤ c2 := by
  rw [rateLimit_store_eq]
  simp only []
  generalize hkeyg : rlKey id wms now = key
  have h1 : ∃ c2, mapGet (mapSet store key ((mapGet store key).getD 0 + 1)) k = some c2
      ∧ c ≤ c2 := by
    by_cases hk : k = key
    · subst hk
      rw [h]
      exact ⟨c + 1, mapGet_mapSet_self _ _ _, by omega⟩
    · exact ⟨c, by rw [mapGet_mapSet_ne _ _ hk, h], le_refl c⟩
  obtain ⟨c2, hc2, hcle⟩ := h1
  by_cases hev : (mapSet store key ((mapGet store key).getD 0 + 1)).length > rlCapacity
  · rw [if_pos hev]
    cases hfk : firstKey (mapSet store key ((mapGet store key).getD 0 + 1)) with
    | none => exact Or.inr ⟨c2, hc2, hcle⟩
    | some oldest =>
        by_cases ho : k = oldest
        · subst ho
          exact Or.inl (mapGet_mapDelete_self _ _)
        · exact Or.inr ⟨c2, by rw [mapGet_mapDelete_ne _ ho, hc2], hcle⟩
  · rw [if_neg hev]
    exact Or.inr ⟨c2, hc2, hcle⟩

/-- A fresh-key call on a store with room left just appends the new entry
with count 1. -/
theorem rateLimit_fresh_no_evict {store : RLStore} {id : String}
    (max wms now : Nat)
    (hfresh : mapGet store (rlKey id wms now) = none)
    (hsmall : store.length + 1 ≤ rlCapacity) :
    (rateLimit store id max wms now).2 = store ++ [(rlKey id wms now, 1)] := by
  rw [rateLimit_store_eq]
  simp only []
  rw [hfresh]
  simp only [Option.getD_none]
  rw [mapSet_of_get_none _ hfresh]
  rw [if_neg]
  simp only [List.length_append, List.length_cons, List.length_nil]
  omega

/-- A fresh-key call on a store already at the ceiling appends the new
entry and evicts the first-inserted entry — even though that entry may
belong to a currently active window. -/
theorem rateLimit_fresh_evict {p : String × Nat} {t : RLStore} {id : String}
    (max wms now : Nat)
    (hfresh : mapGet (p :: t) (rlKey id wms now) = none)
    (hfull : (p :: t).length = rlCapacity)
    (hnd : (keysOf (p :: t)).Nodup) :
    (rateLimit (p :: t) id max wms now).2 = t ++ [(rlKey id wms now, 1)] := by
  rw [rateLimit_store_eq]
  simp only []
  rw [hfresh]
  simp only [Option.getD_none]
  have hset : mapSet (p :: t) (rlKey id wms now) (0 + 1)
      = p :: (t ++ [(rlKey id wms now, 1)]) := by
    rw [mapSet_of_get_none _ hfresh]
    simp
  rw [hset]
  have hlen1 : (p :: (t ++ [(rlKey id wms now, 1)])).length = rlCapacity + 1 := by
    simp only [List.length_cons, List.length_append, List.length_nil] at hfull ⊢
    omega
  rw [if_pos (by rw [hlen1]; omega)]
  simp only [firstKey]
  have hnd1 : (keysOf (p :: (t ++ [(rlKey id wms now, 1)]))).Nodup := by
    rw [← hset]
    exact nodup_keys_mapSet _ hnd
  exact mapDelete_cons_head hnd1

/-! ## A concrete trace on which an eviction resets an active window's
count -/

/-- The active key of the trace: identifier `"z"`, window `0` of a
3600000 ms window (all calls of the trace happen at `now = 0`). -/
def meKey : String := rlKey "z" 3600000 0

/-- The `i`-th interfering identifier: a string of `i + 1` letters `b`,
so that all these identifiers (and their keys) are pairwise distinct. -/
def otherId (i : Nat) : String := ⟨List.replicate (i + 1) 'b'⟩

/-- The store key of the `i`-th interfering identifier in window `0`. -/
def okey (i : Nat) : String := rlKey (otherId i) 3600000 0

/-- The store entries created by the first `j` interfering calls. -/
def freshList (j : Nat) : RLStore :=
  (List.range j).map (fun i => (okey i, 1))

/-- The store of the trace: two calls for `"z"`, then one call for each
of `otherId 0, …, otherId (j-1)`, all at `now = 0` and hence all in the
same rate-limit window. -/
def c9Store : Nat → RLStore
  | 0 => (rateLimit (rateLimit [] "z" 100 3600000 0).2 "z" 100 3600000 0).2
  | j + 1 => (rateLimit (c9Store j) (otherId j) 100 3600000 0).2

theorem length_otherId (i : Nat) : (otherId i).length = i + 1 := by
  show (List.replicate (i + 1) 'b').length = i + 1
  simp

theorem length_okey (i : Nat) : (okey i).length = i + 3 := by
  have h0 : toString ((0 : Nat) / 3600000) = "0" := rfl
  show ((otherId i ++ ":") ++ toString ((0 : Nat) / 3600000)).length = i + 3
  rw [h0, String.length_append, String.length_append, length_otherId]
  have h1 : (":" : String).length = 1 := rfl
  have h2 : ("0" : String).length = 1 := rfl
  rw [h1, h2]

theorem okey_inj : Function.Injective okey := by
  intro i j h
  have hl := congrArg String.length h
  rw [length_okey, length_okey] at hl
  omega

theorem okey_ne_meKey (i : Nat) : okey i ≠ meKey := by
  intro h
  have hl := congrArg String.length h
  rw [length_okey] at hl
  have hm : meKey.length = 3 := rfl
  rw [hm] at hl
  have hi : i = 0 := by omega
  subst hi
  exact absurd h (by decide)

theorem length_freshList (j : Nat) : (freshList j).length = j := by
  simp [freshList]

theorem freshList_succ (j : Nat) :
    freshList (j + 1) = freshList j ++ [(okey j, 1)] := by
  simp [freshList, List.range_succ]

theorem mapGet_freshList_meKey (j : Nat) : mapGet (freshList j) meKey = none := by
  rw [mapGet_eq_none_iff]
  intro p hp
  simp only [freshList, List.mem_map, List.mem_range] at hp
  obtain ⟨i, -, rfl⟩ := hp
  exact okey_ne_meKey i

theorem mapGet_freshList_okey {i j : Nat} (h : j ≤ i) :
    mapGet (freshList j) (okey i) = none := by
  rw [mapGet_eq_none_iff]
  intro p hp
  simp only [freshList, List.mem_map, List.mem_range] at hp
  obtain ⟨i2, hi2, rfl⟩ := hp
  intro he
  have := okey_inj he
  omega

theorem keysOf_freshList (j : Nat) :
    keysOf (freshList j) = (List.range j).map okey := by
  simp only [keysOf, freshList, List.map_map]
  rfl

theorem nodup_keys_freshList (j : Nat) : (keysOf (freshList j)).Nodup := by
  rw [keysOf_freshList]
  exact (List.nodup_range j).map okey_inj

theorem nodup_keys_me_freshList (j : Nat) :
    (keysOf ((meKey, 2) :: freshList j)).Nodup := by
  have : keysOf ((meKey, 2) :: freshList j) = meKey :: keysOf (freshList j) := by
    simp [keysOf]
  rw [this, List.nodup_cons]
  refine ⟨?_, nodup_keys_freshList j⟩
  rw [keysOf_freshList]
  simp only [List.mem_map, List.mem_range, not_exists, not_and]
  intro i _
  exact okey_ne_meKey i

theorem mapGet_me_freshList_okey (j : Nat) :
    mapGet ((meKey, 2) :: freshList j) (okey j) = none := by
  rw [mapGet_eq_none_iff]
  intro p hp
  rcases List.mem_cons.mp hp with rfl | hp
  · exact fun he => okey_ne_meKey j he.symm
  · have := mapGet_eq_none_iff.mp (mapGet_freshList_okey (le_refl j)) p hp
    exact this

theorem c9Store_zero : c9Store 0 = [(meKey, 2)] := rfl

theorem c9Store_succ (j : Nat) :
    c9Store (j + 1) = (rateLimit (c9Store j) (otherId j) 100 3600000 0).2 := rfl

theorem c9Store_closed : ∀ j, j ≤ 9999 → c9Store j = (meKey, 2) :: freshList j
  | 0, _ => by
      rw [c9Store_zero]
      rfl
  | j + 1, hj => by
      have ih := c9Store_closed j (by omega)
      rw [c9Store_succ j, ih]
      have hkey : rlKey (otherId j) 3600000 0 = okey j := rfl
      have hfresh : mapGet ((meKey, 2) :: freshList j) (rlKey (otherId j) 3600000 0) = none := by
        rw [hkey]
        exact mapGet_me_freshList_okey j
      rw [rateLimit_fresh_no_evict 100 3600000 0 hfresh
        (by
          simp only [List.length_cons, length_freshList, rlCapacity]
          omega)]
      rw [hkey, freshList_succ]
      rfl

theorem c9Store_final : c9Store 10000 = freshList 10000 := by
  have h1 : c9Store 10000 = (rateLimit (c9Store 9999) (otherId 9999) 100 3600000 0).2 :=
    c9Store_succ 9999
  rw [h1, c9Store_closed 9999 (by omega)]
  have hkey : rlKey (otherId 9999) 3600000 0 = okey 9999 := rfl
  have hfresh : mapGet ((meKey, 2) :: freshList 9999)
      (rlKey (otherId 9999) 3600000 0) = none := by
    rw [hkey]
    exact mapGet_me_freshList_okey 9999
  rw [rateLimit_fresh_evict 100 3600000 0 hfresh
    (by simp only [List.length_cons, length_freshList, rlCapacity])
    (nodup_keys_me_freshList 9999)]
  rw [hkey]
  exact (freshList_succ 9999).symm

/-- After the trace, a further call for `"z"` (same window, same
parameters) starts over from count 1. -/
theorem c9_reset :
    mapGet (rateLimit (c9Store 10000) "z" 100 3600000 0).2 meKey = some 1 := by
  rw [c9Store_final]
  have hshape : freshList 10000
      = (okey 0, 1) :: (List.range 9999).map (fun i => (okey (i + 1), 1)) := by
    show (List.range (9999 + 1)).map (fun i => (okey i, 1))
        = (okey 0, 1) :: (List.range 9999).map (fun i => (okey (i + 1), 1))
    rw [List.range_succ_eq_map]
    simp only [List.map_cons, List.map_map]
    rfl
  have hkeyz : rlKey "z" 3600000 0 = meKey := rfl
  have hfresh : mapGet (freshList 10000) (rlKey "z" 3600000 0) = none := by
    rw [hkeyz]
    exact mapGet_freshList_meKey 10000
  rw [hshape] at hfresh
  rw [hshape]
  rw [rateLimit_fresh_evict 100 3600000 0 hfresh
    (by
      rw [← hshape, length_freshList]
      rfl)
    (by rw [← hshape]; exact nodup_keys_freshList 10000)]
  rw [hkeyz]
  have htail : mapGet ((List.range 9999).map (fun i => (okey (i + 1), 1))) meKey = none := by
    rw [mapGet_eq_none_iff]
    intro p hp
    simp only [List.mem_map, List.mem_range] at hp
    obtain ⟨i, -, rfl⟩ := hp
    exact okey_ne_meKey (i + 1)
  rw [mapGet_append_of_none _ htail]
  rfl

/-! ## Lemmas about `validateInput` -/

/-- Every error produced by any schema field's checks appears in the
final error list: validation reports all violated fields, not only the
first. -/
theorem mem_errors_of_field {data : List (String × JSValue)}
    {schema : List (String × FieldRules)} {field : String} {rules : FieldRules}
    (hmem : (field, rules) ∈ schema) {e : String}
    (he : e ∈ (validateField field rules (jsGet data field)).1) :
    e ∈ (validateInput data schema).errors := by
  have hmem2 : (validateField field rules (jsGet data field)).1
      ∈ (schema.map (fun p => validateField p.1 p.2 (jsGet data p.1))).map
          (fun r => r.1) := by
    rw [List.map_map]
    exact List.mem_map_of_mem _ hmem
  exact List.mem_flatten.mpr ⟨_, hmem2, he⟩

/-! ## Lemmas about the ingestion handler -/

/-- Behaviour of the current handler on an accepted call (POST, within
the rate limit, schema-valid, positive id), by insert outcome. -/
theorem trackView_accepted (req : TVRequest) (clientIp : String) (store : RLStore)
    (now : Nat) (outcome : InsertOutcome) (isDev : Bool)
    (hm : req.method = "POST")
    (hrl : (rateLimit store clientIp 100 3600000 now).1.allowed = true)
    (hv : (validateInput req.body trackViewSchema).isValid = true)
    (hpos : jsLeZero (jsGet (validateInput req.body trackViewSchema).data "book_id")
      = false) :
    trackViewHandler req clientIp store now outcome isDev =
      match outcome with
      | .ok =>
          { resp := ⟨200, .success true⟩,
            store := (rateLimit store clientIp 100 3600000 now).2,
            inserted := [jsGet (validateInput req.body trackViewSchema).data "book_id"],
            logs := [] }
      | .err =>
          { resp := ⟨200, .success false⟩,
            store := (rateLimit store clientIp 100 3600000 now).2,
            inserted := [], logs := ["Failed to track view"] }
      | .exn =>
          { resp := ⟨500, .internalErr isDev⟩,
            store := (rateLimit store clientIp 100 3600000 now).2,
            inserted := [], logs := ["Error tracking view"] } := by
  obtain ⟨method, body⟩ := req
  simp only at hm hrl hv hpos
  subst hm
  have h1 : (("POST" : String) == "OPTIONS") = false := rfl
  have h2 : (("POST" : String) == "POST") = true := rfl
  cases outcome <;>
    simp only [trackViewHandler, h1, h2, Bool.not_true, Bool.false_eq_true, if_false,
      hrl, hv, hpos, Bool.not_false, if_true]

/-! ## Lemmas about the client deduplicator -/

theorem countCalls_append (b : String) (l1 l2 : List IngestCall) :
    countCalls b (l1 ++ l2) = countCalls b l1 + countCalls b l2 := by
  simp [countCalls, List.filter_append]

/-- Closed form for the number of ingestion calls a session issues for a
book id `b`: none when `b` has already been seen, otherwise exactly one
when some intersecting entry carries `b`. -/
theorem processEntries_count (b : String) (hb : b ≠ "") :
    ∀ (es : List ObsEntry) (viewed : List String),
      countCalls b (processEntries viewed es).2 =
        if b ∈ viewed then 0
        else if es.any (fun e => e.isIntersecting && e.bookId == some b) then 1
        else 0
  | [], viewed => by
      simp [processEntries, countCalls]
  | e :: es, viewed => by
      simp only [processEntries]
      rw [countCalls_append]
      cases hInt : e.isIntersecting with
      | false =>
          simp only [processEntry, hInt, Bool.false_eq_true, if_false]
          rw [processEntries_count b hb es viewed]
          simp [List.any_cons, hInt, countCalls]
      | true =>
          cases hB : e.bookId with
          | none =>
              simp only [processEntry, hInt, hB, if_true]
              rw [processEntries_count b hb es viewed]
              simp [List.any_cons, hInt, hB, countCalls]
          | some b2 =>
              simp only [processEntry, hInt, hB, if_true]
              by_cases hfire : (jsTruthy (.str b2) && !viewed.contains b2) = true
              · rw [if_pos hfire]
                rw [processEntries_count b hb es (b2 :: viewed)]
                by_cases hbb : b2 = b
                · subst hbb
                  have hnotin : b2 ∉ viewed := by
                    rcases Bool.and_eq_true_iff.mp hfire with ⟨-, hc⟩
                    simpa using hc
                  have hhead : countCalls b2 [(⟨.str b2⟩ : IngestCall)] = 1 := by
                    simp [countCalls]
                  rw [hhead]
                  simp [hnotin, List.any_cons, hInt, hB]
                · have hhead : countCalls b [(⟨.str b2⟩ : IngestCall)] = 0 := by
                    simp [countCalls, hbb]
                  rw [hhead]
                  have hmemiff : (b ∈ b2 :: viewed) ↔ b ∈ viewed := by
                    simp [List.mem_cons, Ne.symm hbb]
                  by_cases hbv : b ∈ viewed
                  · simp [hbv, hmemiff.mpr hbv]
                  · have : b ∉ b2 :: viewed := fun hc => hbv (hmemiff.mp hc)
                    simp only [hbv, if_false, this, Nat.zero_add]
                    have hheadtest : (e.isIntersecting && e.bookId == some b) = false := by
                      simp [hInt, hB, hbb]
                    simp [List.any_cons, hheadtest]
              · rw [if_neg hfire]
                rw [processEntries_count b hb es viewed]
                simp only [countCalls, List.filter_nil, List.length_nil, Nat.zero_add]
                by_cases hbb : b2 = b
                · subst hbb
                  have hbv : b2 ∈ viewed := by
                    by_contra hnm
                    apply hfire
                    have h1 : jsTruthy (.str b2) = true := by simpa [jsTruthy] using hb
                    have h2 : viewed.contains b2 = false := by
                      cases hc : viewed.contains b2 with
                      | false => rfl
                      | true => exact absurd (List.elem_iff.mp hc) hnm
                    simp only [h1, h2, Bool.not_false, Bool.and_self]
                  simp [hbv]
                · have hheadtest : (e.isIntersecting && e.bookId == some b) = false := by
                    simp [hInt, hB, hbb]
                  simp [List.any_cons, hheadtest]

/-- Every call the client issues carries a string `book_id` (taken from
`dataset.bookId`). -/
theorem processEntries_calls_str :
    ∀ (es : List ObsEntry) (viewed : List String) (c : IngestCall),
      c ∈ (processEntries viewed es).2 → ∃ s, c.book_id = JSValue.str s
  | [], _, c, h => by simp [processEntries] at h
  | e :: es, viewed, c, h => by
      simp only [processEntries, List.mem_append] at h
      rcases h with h | h
      · rcases e with ⟨i, bid⟩
        cases i with
        | false => simp [processEntry] at h
        | true =>
            cases bid with
            | none => simp [processEntry] at h
            | some b2 =>
                by_cases hf : jsTruthy (JSValue.str b2) = true ∧ b2 ∉ viewed
                · simp [processEntry, hf] at h
                  exact ⟨b2, by rw [h]⟩
                · simp [processEntry, hf] at h
      · exact processEntries_calls_str es _ c h

/-! ## Claim theorems -/

/-- C1, counterexample: at a concrete accepted POST whose awaited insert
throws an exception inside the try block, the current ingestion handler
responds HTTP 500 with an internal-error envelope — not HTTP 200 with
`{success:true, tracked:false}` as the claim states. -/
theorem claim_C1_counterexample :
    (trackViewHandler ⟨"POST", [("book_id", .num 7)]⟩ "1.2.3.4" [] 0 .exn false).resp
        = ⟨500, .internalErr false⟩
    ∧ (trackViewHandler ⟨"POST", [("book_id", .num 7)]⟩ "1.2.3.4" [] 0 .exn false).resp.status
        ≠ 200 :=
  ⟨rfl, by decide⟩

/-- C1, amended: when an unexpected exception is thrown inside the try
block of an accepted ingestion call, the current handler's top-level
exception handler responds with HTTP 500 and an internal-error envelope
(never a success envelope); only the legacy handler variant in the same
file responds HTTP 200 with `{success:true, tracked:false}`. -/
theorem claim_C1_amended :
    (∀ (req : TVRequest) (clientIp : String) (store : RLStore) (now : Nat) (isDev : Bool),
      req.method = "POST" →
      (rateLimit store clientIp 100 3600000 now).1.allowed = true →
      (validateInput req.body trackViewSchema).isValid = true →
      jsLeZero (jsGet (validateInput req.body trackViewSchema).data "book_id") = false →
      (trackViewHandler req clientIp store now .exn isDev).resp
        = ⟨500, .internalErr isDev⟩)
    ∧ (∀ (req : TVRequest) (n : Int),
      req.method = "POST" →
      jsParseInt (jsGet req.body "book_id") = some n →
      jsTruthy (jsGet req.body "book_id") = true →
      (trackViewHandlerLegacy req .exn).1 = ⟨200, .success false⟩) := by
  constructor
  · intro req ip store now isDev hm hrl hv hpos
    rw [trackView_accepted req ip store now .exn isDev hm hrl hv hpos]
  · intro req n hm hp ht
    obtain ⟨method, body⟩ := req
    simp only at hm hp ht
    subst hm
    have h2 : (("POST" : String) == "POST") = true := rfl
    simp only [trackViewHandlerLegacy, h2, Bool.not_true, Bool.false_eq_true, if_false]
    rw [hp]
    simp [ht]

/-- C1, witness for the amended theorem. -/
theorem claim_C1_witness :
    (trackViewHandler ⟨"POST", [("book_id", .num 3)]⟩ "9.9.9.9" [] 0 .exn true).resp
        = ⟨500, .internalErr true⟩
    ∧ (trackViewHandlerLegacy ⟨"POST", [("book_id", .num 3)]⟩ .exn).1
        = ⟨200, .success false⟩ :=
  ⟨claim_C1_amended.1 ⟨"POST", [("book_id", .num 3)]⟩ "9.9.9.9" [] 0 true rfl
      (by decide) (by decide) (by decide),
    claim_C1_amended.2 ⟨"POST", [("book_id", .num 3)]⟩ 3 rfl (by decide) (by decide)⟩

/-- C2: on an accepted ingestion call (POST, within the rate limit,
schema-valid, positive id), an insert error still yields HTTP 200
`{success:true, tracked:false}` with the storage error logged and nothing
inserted, while a successful insert yields HTTP 200
`{success:true, tracked:true}`. -/
theorem claim_C2 :
    ∀ (req : TVRequest) (clientIp : String) (store : RLStore) (now : Nat) (isDev : Bool),
      req.method = "POST" →
      (rateLimit store clientIp 100 3600000 now).1.allowed = true →
      (validateInput req.body trackViewSchema).isValid = true →
      jsLeZero (jsGet (validateInput req.body trackViewSchema).data "book_id") = false →
      (trackViewHandler req clientIp store now .err isDev).resp = ⟨200, .success false⟩
      ∧ (trackViewHandler req clientIp store now .err isDev).logs
          = ["Failed to track view"]
      ∧ (trackViewHandler req clientIp store now .err isDev).inserted = []
      ∧ (trackViewHandler req clientIp store now .ok isDev).resp = ⟨200, .success true⟩ := by
  intro req ip store now isDev hm hrl hv hpos
  rw [trackView_accepted req ip store now .err isDev hm hrl hv hpos,
    trackView_accepted req ip store now .ok isDev hm hrl hv hpos]
  exact ⟨rfl, rfl, rfl, rfl⟩

/-- C2, witness. -/
theorem claim_C2_witness :
    (trackViewHandler ⟨"POST", [("book_id", .num 7)]⟩ "2.2.2.2" [] 0 .err false).resp
        = ⟨200, .success false⟩
    ∧ (trackViewHandler ⟨"POST", [("book_id", .num 7)]⟩ "2.2.2.2" [] 0 .err false).logs
        = ["Failed to track view"]
    ∧ (trackViewHandler ⟨"POST", [("book_id", .num 7)]⟩ "2.2.2.2" [] 0 .err false).inserted
        = []
    ∧ (trackViewHandler ⟨"POST", [("book_id", .num 7)]⟩ "2.2.2.2" [] 0 .ok false).resp
        = ⟨200, .success true⟩ :=
  claim_C2 ⟨"POST", [("book_id", .num 7)]⟩ "2.2.2.2" [] 0 false rfl
    (by decide) (by decide) (by decide)

/-- C3: for consecutive `rateLimit` calls for one identifier within one
fixed window (key initially absent, store within its ceiling), the `i`-th
call (0-based) is allowed iff `i + 1 ≤ maxRequests` — so the first
`maxRequests` calls are allowed — and every later call is rejected with
`retryAfterSeconds = ceil(windowMillis / 1000) > 0`. -/
theorem claim_C3 :
    ∀ (store : RLStore) (identifier : String) (maxRequests windowMs w : Nat)
      (ts : List Nat),
      0 < maxRequests → 0 < windowMs →
      store.length ≤ 10000 →
      mapGet store (identifier ++ ":" ++ toString w) = none →
      (∀ t ∈ ts, t / windowMs = w) →
      ∀ i (h : i < (rlRun store identifier maxRequests windowMs ts).1.length),
        ((rlRun store identifier maxRequests windowMs ts).1.get ⟨i, h⟩).allowed
            = decide (i + 1 ≤ maxRequests)
        ∧ (i + 1 ≤ maxRequests →
            ((rlRun store identifier maxRequests windowMs ts).1.get ⟨i, h⟩).allowed
              = true)
        ∧ (maxRequests < i + 1 →
            ((rlRun store identifier maxRequests windowMs ts).1.get ⟨i, h⟩).allowed
                = false
            ∧ ((rlRun store identifier maxRequests windowMs ts).1.get ⟨i, h⟩).retryAfter
                = (windowMs + 999) / 1000
            ∧ 0 < ((rlRun store identifier maxRequests windowMs ts).1.get
                ⟨i, h⟩).retryAfter) := by
  intro store idf maxR wms w ts hmax hwms hlen hfresh hts i h
  have hs := rlRun_spec ts store 0 (Or.inr ⟨hfresh, rfl⟩) hlen hts i h
  rw [hs]
  simp only [Nat.zero_add]
  refine ⟨by trivial, fun hle => by simp [hle], fun hlt => ?_⟩
  have hnot : ¬ (i + 1 ≤ maxR) := by omega
  refine ⟨by simp [hnot], ?_, ?_⟩
  · simp [hnot]
  · simp only [hnot, if_false]
    exact Nat.div_pos (by omega) (by norm_num)

/-- C3, witness: three calls at limit 2 within the window starting from
the empty store. -/
theorem claim_C3_witness :
    ((rlRun ([] : RLStore) "ip" 2 1000 [0, 1, 2]).1.get ⟨2, by decide⟩).allowed
        = decide (2 + 1 ≤ 2)
    ∧ (2 + 1 ≤ 2 →
        ((rlRun ([] : RLStore) "ip" 2 1000 [0, 1, 2]).1.get ⟨2, by decide⟩).allowed = true)
    ∧ (2 < 2 + 1 →
        ((rlRun ([] : RLStore) "ip" 2 1000 [0, 1, 2]).1.get ⟨2, by decide⟩).allowed = false
        ∧ ((rlRun ([] : RLStore) "ip" 2 1000 [0, 1, 2]).1.get ⟨2, by decide⟩).retryAfter
            = (1000 + 999) / 1000
        ∧ 0 < ((rlRun ([] : RLStore) "ip" 2 1000 [0, 1, 2]).1.get ⟨2, by decide⟩).retryAfter) :=
  claim_C3 [] "ip" 2 1000 0 [0, 1, 2] (by decide) (by decide) (by decide) (by decide)
    (by decide) 2 (by decide)

/-- C4: the ingestion endpoint answers HTTP 400 naming the violated rule
for a missing `book_id` ("book_id is required") and a non-coercible
`book_id` such as "abc" ("book_id must be a number"); a negative
`book_id` such as -5 passes the generic numeric schema check and is then
rejected HTTP 400 by the separate `book_id > 0` business rule; and when
schema validation fails, every violated field's message appears in the
error list, not only the first. -/
theorem claim_C4 :
    ((trackViewHandler ⟨"POST", []⟩ "1.1.1.1" [] 0 .ok false).resp
        = ⟨400, .validationFailed "Validation failed" ["book_id is required"]⟩)
    ∧ ((trackViewHandler ⟨"POST", [("book_id", .str "abc")]⟩ "1.1.1.1" [] 0 .ok false).resp
        = ⟨400, .validationFailed "Validation failed" ["book_id must be a number"]⟩)
    ∧ ((validateInput [("book_id", .num (-5))] trackViewSchema).isValid = true)
    ∧ ((trackViewHandler ⟨"POST", [("book_id", .num (-5))]⟩ "1.1.1.1" [] 0 .ok false).resp
        = ⟨400, .validationFailed "book_id must be a positive number" []⟩)
    ∧ (∀ (data : List (String × JSValue)) (schema : List (String × FieldRules))
        (field : String) (rules : FieldRules) (e : String),
        (field, rules) ∈ schema →
        e ∈ (validateField field rules (jsGet data field)).1 →
        e ∈ (validateInput data schema).errors) :=
  ⟨rfl, rfl, rfl, rfl, fun _ _ _ _ _ hm he => mem_errors_of_field hm he⟩

/-- C4, witness: a two-field schema with both fields missing reports the
second field's violation too. -/
theorem claim_C4_witness :
    "b is required" ∈ (validateInput []
      [("a", { required := true, type := some "number" }),
       ("b", { required := true, type := some "number" })]).errors :=
  claim_C4.2.2.2.2 [] [("a", { required := true, type := some "number" }),
      ("b", { required := true, type := some "number" })]
    "b" { required := true, type := some "number" } "b is required"
    (List.mem_cons_of_mem _ (List.mem_singleton.mpr rfl))
    (List.mem_singleton.mpr rfl)

/-- C5: the catalog listing handler in the source is an explicit
placeholder; for every GET request it returns an empty book list with
zeroed pagination and stats, ignoring both the query parameters and the
books present in the datastore — in particular, with 5 books stored and
`page=1&limit=20` it does not return those books, contradicting the
claim and the repository's own optimization notes. -/
theorem claim_C5_code_bug :
    ∀ (page limit : Nat) (db : List Nat),
      booksHandler ⟨"GET", page, limit⟩ db = ⟨200, .booksOk [] 1 20 0 0 0 0⟩ :=
  fun _ _ _ => rfl

/-- C6, counterexample: an OPTIONS request is not POST, yet the ingestion
handler answers it with HTTP 200 and an empty body (CORS preflight), not
HTTP 405 as the claim states for every non-POST method. -/
theorem claim_C6_counterexample :
    (trackViewHandler ⟨"OPTIONS", []⟩ "1.2.3.4" [] 0 .ok false).resp = ⟨200, .empty⟩
    ∧ (trackViewHandler ⟨"OPTIONS", []⟩ "1.2.3.4" [] 0 .ok false).resp.status ≠ 405 :=
  ⟨rfl, by decide⟩

/-- C6, amended: every request whose method is neither POST nor OPTIONS
gets HTTP 405 from the ingestion handler with no side effects (store
untouched, nothing inserted, nothing logged); an OPTIONS preflight gets
HTTP 200 with an empty body and no side effects; and the catalog listing
handler answers HTTP 405 to every non-GET method. -/
theorem claim_C6_amended :
    (∀ (req : TVRequest) (clientIp : String) (store : RLStore) (now : Nat)
        (outcome : InsertOutcome) (isDev : Bool),
      req.method ≠ "POST" → req.method ≠ "OPTIONS" →
      trackViewHandler req clientIp store now outcome isDev
        = { resp := ⟨405, .methodNotAllowed "POST"⟩, store := store,
            inserted := [], logs := [] })
    ∧ (∀ (req : TVRequest) (clientIp : String) (store : RLStore) (now : Nat)
        (outcome : InsertOutcome) (isDev : Bool),
      req.method = "OPTIONS" →
      trackViewHandler req clientIp store now outcome isDev
        = { resp := ⟨200, .empty⟩, store := store, inserted := [], logs := [] })
    ∧ (∀ (req : BooksRequest) (db : List Nat),
      req.method ≠ "GET" →
      booksHandler req db = ⟨405, .errMsg "Method not allowed. Use GET."⟩) := by
  refine ⟨?_, ?_, ?_⟩
  · intro req ip store now outcome isDev h1 h2
    obtain ⟨m, b⟩ := req
    simp only at h1 h2
    have e1 : (m == "OPTIONS") = false := beq_eq_false_iff_ne.mpr h2
    have e2 : (m == "POST") = false := beq_eq_false_iff_ne.mpr h1
    simp only [trackViewHandler, e1, e2, Bool.false_eq_true, if_false,
      Bool.not_false, if_true]
  · intro req ip store now outcome isDev h1
    obtain ⟨m, b⟩ := req
    simp only at h1
    subst h1
    have e1 : (("OPTIONS" : String) == "OPTIONS") = true := rfl
    simp only [trackViewHandler, e1, if_true]
  · intro req db h
    obtain ⟨m, p, l⟩ := req
    simp only at h
    have e : (m == "GET") = false := beq_eq_false_iff_ne.mpr h
    simp only [booksHandler, e, Bool.not_false, if_true]

/-- C6, witness. -/
theorem claim_C6_witness :
    trackViewHandler ⟨"DELETE", []⟩ "ip" [("a:0", 1)] 0 .ok false
        = { resp := ⟨405, .methodNotAllowed "POST"⟩, store := [("a:0", 1)],
            inserted := [], logs := [] }
    ∧ trackViewHandler ⟨"OPTIONS", []⟩ "ip" [("a:0", 1)] 5 .err true
        = { resp := ⟨200, .empty⟩, store := [("a:0", 1)], inserted := [], logs := [] }
    ∧ booksHandler ⟨"POST", 1, 20⟩ [1, 2, 3]
        = ⟨405, .errMsg "Method not allowed. Use GET."⟩ :=
  ⟨claim_C6_amended.1 ⟨"DELETE", []⟩ "ip" [("a:0", 1)] 0 .ok false
      (by decide) (by decide),
    claim_C6_amended.2.1 ⟨"OPTIONS", []⟩ "ip" [("a:0", 1)] 5 .err true rfl,
    claim_C6_amended.2.2 ⟨"POST", 1, 20⟩ [1, 2, 3] (by decide)⟩

/-- C7: within one page session (the `viewedBooks` set starting empty),
the observer issues exactly one ingestion call for a (non-empty) book id
that some intersecting entry carries, and zero otherwise — in particular
at most one call per book id, no matter how often the same book
re-intersects. -/
theorem claim_C7 :
    ∀ (es : List ObsEntry) (b : String), b ≠ "" →
      countCalls b (runSession es).2
          = (if es.any (fun e => e.isIntersecting && e.bookId == some b) then 1 else 0)
      ∧ countCalls b (runSession es).2 ≤ 1 := by
  intro es b hb
  have h := processEntries_count b hb es []
  simp only [List.not_mem_nil, if_false] at h
  refine ⟨h, ?_⟩
  rw [show countCalls b (runSession es).2
      = (if es.any (fun e => e.isIntersecting && e.bookId == some b) then 1 else 0)
    from h]
  split <;> omega

/-- C7, witness: seeing the same book twice fires exactly one call. -/
theorem claim_C7_witness :
    countCalls "7" (runSession [⟨true, some "7"⟩, ⟨true, some "7"⟩]).2
        = (if ([(⟨true, some "7"⟩ : ObsEntry), ⟨true, some "7"⟩].any
            (fun e => e.isIntersecting && e.bookId == some "7")) then 1 else 0)
    ∧ countCalls "7" (runSession [⟨true, some "7"⟩, ⟨true, some "7"⟩]).2 ≤ 1 :=
  claim_C7 [⟨true, some "7"⟩, ⟨true, some "7"⟩] "7" (by decide)

/-- C8: one `rateLimit` call on a store within the 10000-entry ceiling
(and with distinct keys) leaves it within the ceiling, and when the
insertion pushed the store above the ceiling, exactly one existing entry
is evicted; starting from the empty store, every sequence of calls keeps
the store at 10000 entries or fewer. -/
theorem claim_C8 :
    (∀ (store : RLStore) (identifier : String) (maxRequests windowMs now : Nat),
      (keysOf store).Nodup → store.length ≤ 10000 →
      (rateLimit store identifier maxRequests windowMs now).2.length ≤ 10000
      ∧ ((mapSet store (rlKey identifier windowMs now)
            ((mapGet store (rlKey identifier windowMs now)).getD 0 + 1)).length > 10000 →
          (rateLimit store identifier maxRequests windowMs now).2.length
            = (mapSet store (rlKey identifier windowMs now)
                ((mapGet store (rlKey identifier windowMs now)).getD 0 + 1)).length - 1))
    ∧ (∀ calls : List (String × Nat × Nat × Nat),
        (rlRunAny [] calls).length ≤ 10000) := by
  constructor
  · intro store idf maxR wms now hnd hlen
    have h := rateLimit_preserves store idf maxR wms now hlen hnd
    exact ⟨h.1, h.2.2⟩
  · intro calls
    exact (rlRunAny_inv calls [] (Nat.zero_le _) List.nodup_nil).1

/-- C8, witness. -/
theorem claim_C8_witness :
    (rateLimit [("a:0", 5)] "b" 100 1000 0).2.length ≤ 10000 :=
  (claim_C8.1 [("a:0", 5)] "b" 100 1000 0 (by simp [keysOf]) (by simp)).1

/-- C9, counterexample: all calls of the trace `c9Store` happen at
`now = 0`, i.e. inside one fixed window.  After two calls for `"z"` the
key `"z:0"` has count 2; ten thousand interleaved calls for other
identifiers push the store past its ceiling and evict that key (its
count disappears), and the next call for `"z"` restarts the count at 1 —
so the count is not monotonically non-decreasing within the window's
lifetime under interleaving with other identifiers. -/
theorem claim_C9_counterexample :
    mapGet (c9Store 0) meKey = some 2
    ∧ mapGet (c9Store 10000) meKey = none
    ∧ mapGet (rateLimit (c9Store 10000) "z" 100 3600000 0).2 meKey = some 1 := by
  refine ⟨?_, ?_, c9_reset⟩
  · rw [c9Store_zero]
    rfl
  · rw [c9Store_final]
    exact mapGet_freshList_meKey 10000

/-- C9, amended: across one `rateLimit` call (for any identifier), the
count associated with a tracked key either stays, grows, or the entry is
evicted outright; the count never decreases while the key remains in the
store, but eviction may remove an active window's key, after which its
count restarts. -/
theorem claim_C9_amended :
    ∀ (store : RLStore) (k : String) (c : Nat) (identifier : String)
      (maxRequests windowMs now : Nat),
      mapGet store k = some c →
      mapGet (rateLimit store identifier maxRequests windowMs now).2 k = none
      ∨ ∃ c2, mapGet (rateLimit store identifier maxRequests windowMs now).2 k = some c2
          ∧ c ≤ c2 :=
  fun _ _ _ idf maxR wms now h => rateLimit_mono_or_evict idf maxR wms now h

/-- C9, witness for the amended theorem. -/
theorem claim_C9_witness :
    mapGet (rateLimit [("x:0", 3)] "x" 100 1000 0).2 "x:0" = none
    ∨ ∃ c2, mapGet (rateLimit [("x:0", 3)] "x" 100 1000 0).2 "x:0" = some c2 ∧ 3 ≤ c2 :=
  claim_C9_amended [("x:0", 3)] "x:0" 3 "x" 100 1000 0 (by decide)

/-- C10: the numeric string "42" and the boolean `true` pass the
`number` schema check by `Number(...)` coercion (yielding 42 and 1); an
accepted call with `book_id: "42"` inserts a row with the coerced value
42; and every call the client deduplicator issues carries a string
`book_id` taken from `dataset.bookId`, so client calls rely on this
coercion. -/
theorem claim_C10 :
    ((validateInput [("book_id", .str "42")] trackViewSchema).isValid = true
      ∧ jsGet (validateInput [("book_id", .str "42")] trackViewSchema).data "book_id"
          = .num 42)
    ∧ ((validateInput [("book_id", .bool true)] trackViewSchema).isValid = true
      ∧ jsGet (validateInput [("book_id", .bool true)] trackViewSchema).data "book_id"
          = .num 1)
    ∧ ((trackViewHandler ⟨"POST", [("book_id", .str "42")]⟩ "ip" [] 0 .ok false).resp
          = ⟨200, .success true⟩
      ∧ (trackViewHandler ⟨"POST", [("book_id", .str "42")]⟩ "ip" [] 0 .ok false).inserted
          = [.num 42])
    ∧ (∀ (es : List ObsEntry) (c : IngestCall),
        c ∈ (runSession es).2 → ∃ s, c.book_id = JSValue.str s) :=
  ⟨⟨rfl, rfl⟩, ⟨rfl, rfl⟩, ⟨rfl, rfl⟩,
    fun es c h => processEntries_calls_str es [] c h⟩

/-- C10, witness for the universally quantified client part. -/
theorem claim_C10_witness :
    ∃ s, (⟨JSValue.str "7"⟩ : IngestCall).book_id = JSValue.str s :=
  claim_C10.2.2.2 [⟨true, some "7"⟩] ⟨JSValue.str "7"⟩ (List.mem_singleton.mpr rfl)

end Bookshelf
